import Mathlib

/-!
Verification of the Kafka wire-protocol codec (`src/protocol.rs`, `src/types.rs`).

The Rust trait `KafkaSerializable` provides `encode`, `decode`, `size`.  We embed it
shallowly:

* a byte stream is a `List Nat` (each element one byte);
* `encode` on an in-memory writer never fails, so it is a pure function `α → List Nat`;
* `decode` takes the remaining input and returns either a value together with the
  unconsumed suffix, or a `DecErr`;
* machine integers are `Int` with explicit wrapping where the source casts
  (`as i16`, `as i32`, `as uint`); Rust `String` values are their UTF-8 byte lists.

`DecErr` distinguishes the three failure modes of the source:
* `eof` models an `IoError` of kind `EndOfFile` (a short `read_exact`),
* `invalidInput desc` models `IoError { kind: InvalidInput, desc }`,
* `assertFail msg` models a failed `assert!` / `assert_eq!`, i.e. a Rust panic — the
  decode call aborts instead of returning an error value to the caller.
-/

inductive DecErr : Type
  | eof : DecErr
  | invalidInput : String → DecErr
  | assertFail : String → DecErr
deriving Repr, DecidableEq

/-- Big-endian byte list of the `w`-byte unsigned value `n` (low bits of `n`). -/
def natBE : Nat → Nat → List Nat
  | 0, _ => []
  | k + 1, n => natBE k (n / 256) ++ [n % 256]

/-- Reassemble a big-endian byte list into the unsigned value it denotes. -/
def natFromBE (l : List Nat) : Nat :=
  l.foldl (fun a b => a * 256 + b) 0

/-- `reader.read_exact(n)`: take exactly `n` bytes or fail with end-of-file. -/
def readExact (n : Nat) (l : List Nat) : Except DecErr (List Nat × List Nat) :=
  if n ≤ l.length then .ok (l.take n, l.drop n) else .error .eof

/-- Two's-complement reading of a `w`-byte unsigned value. -/
def toSigned (w : Nat) (n : Nat) : Int :=
  if n < 2 ^ (8 * w - 1) then (n : Int) else (n : Int) - 2 ^ (8 * w)

/-- The low `8*w` bits of an integer, as a `Nat` (two's-complement truncation). -/
def wrapN (w : Nat) (v : Int) : Nat :=
  (v % ((2 ^ (8 * w) : Nat) : Int)).toNat

/-- `write_be_i{8,16,32,64}`: big-endian two's-complement encoding, `w` bytes. -/
def encInt (w : Nat) (v : Int) : List Nat :=
  natBE w (wrapN w v)

/-- `read_be_i{8,16,32,64}`: read `w` bytes, reassemble, interpret as signed. -/
def decInt (w : Nat) (l : List Nat) : Except DecErr (Int × List Nat) :=
  match readExact w l with
  | .error e => .error e
  | .ok (bs, r) => .ok (toSigned w (natFromBE bs), r)

/-- The Rust cast `len as i16` (usize to i16: truncate, reinterpret signed). -/
def asI16 (n : Nat) : Int := toSigned 2 (n % 2 ^ 16)

/-- The Rust cast `len as i32` (usize to i32: truncate, reinterpret signed). -/
def asI32 (n : Nat) : Int := toSigned 4 (n % 2 ^ 32)

/-- The Rust cast `size as uint` (i32 sign-extended, reinterpreted as 64-bit usize). -/
def asUint (v : Int) : Nat := (v % ((2 ^ 64 : Nat) : Int)).toNat

/-- Wrap an integer into the i32 two's-complement range: the value an i32
arithmetic result takes in this pre-1.0 Rust, where overflow wraps silently. -/
def wrapI32 (v : Int) : Int := toSigned 4 (wrapN 4 v)

/-- Wrapping i32 addition — every `+` inside a Rust `size()` computation, since
`size()` returns `i32` and all its arithmetic is i32 arithmetic. -/
def addI32 (a b : Int) : Int := wrapI32 (a + b)

/-- Is `b` a UTF-8 continuation byte (`0x80..=0xBF`)? -/
def isCont (b : Nat) : Bool := decide (0x80 ≤ b ∧ b ≤ 0xBF)

/-- Validity of the tail bytes of a 3-byte UTF-8 sequence led by `b`. -/
def utf8Tail3 (b c1 c2 : Nat) : Bool :=
  (if b = 0xE0 then decide (0xA0 ≤ c1 ∧ c1 ≤ 0xBF)
   else if b = 0xED then decide (0x80 ≤ c1 ∧ c1 ≤ 0x9F)
   else isCont c1) && isCont c2

/-- Validity of the tail bytes of a 4-byte UTF-8 sequence led by `b`. -/
def utf8Tail4 (b c1 c2 c3 : Nat) : Bool :=
  (if b = 0xF0 then decide (0x90 ≤ c1 ∧ c1 ≤ 0xBF)
   else if b = 0xF4 then decide (0x80 ≤ c1 ∧ c1 ≤ 0x8F)
   else isCont c1) && isCont c2 && isCont c3

/-- `String::from_utf8` validity: the byte list is well-formed UTF-8 (RFC 3629). -/
def utf8Valid : List Nat → Bool
  | [] => true
  | b :: rest =>
    if b ≤ 0x7F then utf8Valid rest
    else if b < 0xC2 then false
    else if b ≤ 0xDF then
      match rest with
      | c1 :: r => isCont c1 && utf8Valid r
      | [] => false
    else if b ≤ 0xEF then
      match rest with
      | c1 :: c2 :: r => utf8Tail3 b c1 c2 && utf8Valid r
      | _ => false
    else if b ≤ 0xF4 then
      match rest with
      | c1 :: c2 :: c3 :: r => utf8Tail4 b c1 c2 c3 && utf8Valid r
      | _ => false
    else false

/-- The dictionary of the Rust trait `KafkaSerializable`. -/
structure Codec (α : Type) where
  enc : α → List Nat
  dec : List Nat → Except DecErr (α × List Nat)
  size : α → Int

/-- `impl KafkaSerializable for i8/i16/i32/i64` (width `w` bytes). -/
def intC (w : Nat) : Codec Int :=
  ⟨encInt w, decInt w, fun _ => (w : Int)⟩

def i8C : Codec Int := intC 1
def i16C : Codec Int := intC 2
def i32C : Codec Int := intC 4
def i64C : Codec Int := intC 8

/-- `String::encode`: `(self.len() as i16).encode` then the raw UTF-8 bytes. -/
def stringEnc (s : List Nat) : List Nat :=
  encInt 2 (asI16 s.length) ++ s

/-- `String::decode` (protocol.rs): read the i16 length, `read_exact` that many
bytes (the cast `size as uint` sign-extends), then `assert!(size >= 0)`, then
validate UTF-8. -/
def stringDec (l : List Nat) : Except DecErr (List Nat × List Nat) :=
  match decInt 2 l with
  | .error e => .error e
  | .ok (size, r) =>
    match readExact (asUint size) r with
    | .error e => .error e
    | .ok (buffer, r2) =>
      if size < 0 then .error (.assertFail "size >= 0")
      else if utf8Valid buffer then .ok (buffer, r2)
      else .error (.invalidInput "Problem decoding buffer as utf8")

/-- `String::size`: `(0i16).size() + (self.as_bytes().len() as i32)`, an i32 sum. -/
def stringSize (s : List Nat) : Int := addI32 2 (asI32 s.length)

def stringC : Codec (List Nat) := ⟨stringEnc, stringDec, stringSize⟩

/-- `Option<String>::encode` (protocol.rs): present strings exactly as `String`,
absence as the i16 sentinel `-1` with no payload. -/
def optStringEnc : Option (List Nat) → List Nat
  | some s => encInt 2 (asI16 s.length) ++ s
  | none => encInt 2 (-1)

/-- `Option<String>::decode` (protocol.rs): `assert!(size >= -1)`, `-1` is `None`,
otherwise read and UTF-8-validate the payload. -/
def optStringDec (l : List Nat) : Except DecErr (Option (List Nat) × List Nat) :=
  match decInt 2 l with
  | .error e => .error e
  | .ok (size, r) =>
    if size < -1 then .error (.assertFail "size >= -1")
    else if size = -1 then .ok (none, r)
    else
      match readExact (asUint size) r with
      | .error e => .error e
      | .ok (buffer, r2) =>
        if utf8Valid buffer then .ok (some buffer, r2)
        else .error (.invalidInput "Problem decoding buffer as utf8")

def optStringSize : Option (List Nat) → Int
  | some s => addI32 2 (asI32 s.length)
  | none => addI32 2 0

def optStringC : Codec (Option (List Nat)) := ⟨optStringEnc, optStringDec, optStringSize⟩

/-- `Option<String>::decode` as written in `types.rs`: identical but with no
`assert!(size >= -1)`; a length below `-1` goes straight to `read_exact` with the
sign-extended huge count. -/
def typesOptStringDec (l : List Nat) : Except DecErr (Option (List Nat) × List Nat) :=
  match decInt 2 l with
  | .error e => .error e
  | .ok (size, r) =>
    if size = -1 then .ok (none, r)
    else
      match readExact (asUint size) r with
      | .error e => .error e
      | .ok (buffer, r2) =>
        if utf8Valid buffer then .ok (some buffer, r2)
        else .error (.invalidInput "Problem decoding buffer as utf8")

/-- `Vec<u8>::encode`: `(self.len() as i32).encode` then the raw bytes. -/
def bytesEnc (b : List Nat) : List Nat :=
  encInt 4 (asI32 b.length) ++ b

/-- `Vec<u8>::decode`: read the i32 length, `assert!(size >= 0)`, `read_exact`. -/
def bytesDec (l : List Nat) : Except DecErr (List Nat × List Nat) :=
  match decInt 4 l with
  | .error e => .error e
  | .ok (size, r) =>
    if size < 0 then .error (.assertFail "size >= 0")
    else readExact (asUint size) r

/-- `Vec<u8>::size`: `(0i32).size() + (self.len() as i32)`, an i32 sum that wraps
for lengths at or above `2^31 - 4`. -/
def bytesSize (b : List Nat) : Int := addI32 4 (asI32 b.length)

def bytesC : Codec (List Nat) := ⟨bytesEnc, bytesDec, bytesSize⟩

/-- `Option<Vec<u8>>::encode`: present as `Vec<u8>`, absence as i32 `-1`. -/
def optBytesEnc : Option (List Nat) → List Nat
  | some b => encInt 4 (asI32 b.length) ++ b
  | none => encInt 4 (-1)

/-- `Option<Vec<u8>>::decode` (protocol.rs): `assert!(size >= -1)`, `-1` is `None`,
otherwise `read_exact`. -/
def optBytesDec (l : List Nat) : Except DecErr (Option (List Nat) × List Nat) :=
  match decInt 4 l with
  | .error e => .error e
  | .ok (size, r) =>
    if size < -1 then .error (.assertFail "size >= -1")
    else if size = -1 then .ok (none, r)
    else
      match readExact (asUint size) r with
      | .error e => .error e
      | .ok (vec, r2) => .ok (some vec, r2)

def optBytesSize : Option (List Nat) → Int
  | some b => addI32 4 (asI32 b.length)
  | none => addI32 4 0

def optBytesC : Codec (Option (List Nat)) := ⟨optBytesEnc, optBytesDec, optBytesSize⟩

/-- `Vec<T>::encode`: the i32 element count, then each element in order. -/
def vecEnc (c : Codec α) (xs : List α) : List Nat :=
  encInt 4 (asI32 xs.length) ++ (xs.map c.enc).flatten

/-- The decode loop of `Vec<T>::decode`: exactly `n` elements in order. -/
def decN (c : Codec α) : Nat → List Nat → Except DecErr (List α × List Nat)
  | 0, l => .ok ([], l)
  | n + 1, l =>
    match c.dec l with
    | .error e => .error e
    | .ok (x, r) =>
      match decN c n r with
      | .error e => .error e
      | .ok (xs, r2) => .ok (x :: xs, r2)

/-- `Vec<T>::decode`: read the count, `assert!(size >= 0)`, decode that many. -/
def vecDec (c : Codec α) (l : List Nat) : Except DecErr (List α × List Nat) :=
  match decInt 4 l with
  | .error e => .error e
  | .ok (size, r) =>
    if size < 0 then .error (.assertFail "size >= 0")
    else decN c (asUint size) r

/-- `Vec<T>::size`: a fold starting from `(0i32).size()` adding element sizes in
wrapping i32 arithmetic. -/
def vecSize (c : Codec α) (xs : List α) : Int :=
  xs.foldl (fun sum x => addI32 sum (c.size x)) 4

def vecC (c : Codec α) : Codec (List α) := ⟨vecEnc c, vecDec c, vecSize c⟩

/-- `WithSize<T>::encode`: `self.0.size().encode` (an i32) then the payload.
The newtype `WithSize<T>(T)` is represented by its payload. -/
def withSizeEnc (c : Codec α) (v : α) : List Nat :=
  encInt 4 (c.size v) ++ c.enc v

/-- `WithSize<T>::decode`: read the declared i32 length, decode the payload
through a `LimitReader` bounded to `size as uint` bytes, then
`assert_eq!(limited_reader.limit(), 0)`.  The bounded reader is modelled by
running the inner decoder on the first `n` bytes only; `limit()` afterwards is
the quota minus the bytes the inner decoder pulled through it. -/
def withSizeDec (c : Codec α) (l : List Nat) : Except DecErr (α × List Nat) :=
  match decInt 4 l with
  | .error e => .error e
  | .ok (size, r) =>
    match c.dec (r.take (asUint size)) with
    | .error e => .error e
    | .ok (v, leftover) =>
      if asUint size - ((r.take (asUint size)).length - leftover.length) = 0 then
        .ok (v, r.drop ((r.take (asUint size)).length - leftover.length))
      else .error (.assertFail "limit == 0")

/-- `WithSize<T>::size`: `(0i32).size() + self.0.size()`, an i32 sum. -/
def withSizeSize (c : Codec α) (v : α) : Int := addI32 4 (c.size v)

def withSizeC (c : Codec α) : Codec α := ⟨withSizeEnc c, withSizeDec c, withSizeSize c⟩

/-- `RequestOrResponse<T>`: its `impl` is textually identical to `WithSize<T>`'s
(write the payload size, bound the reader, assert zero remainder). -/
def requestOrResponseC (c : Codec α) : Codec α := withSizeC c

/-- `struct RequestMessage<T>` (the api key and version are not stored: the key is
the type's `Request::api_key` constant, the version is fixed at 0). -/
structure RequestMessage (α : Type) where
  correlation_id : Int
  client_id : List Nat
  request_message : α
deriving Repr, DecidableEq

/-- `RequestMessage<T>::encode`: api key constant, version 0, correlation id,
client id, payload. -/
def reqMsgEnc (apiKey : Int) (c : Codec α) (m : RequestMessage α) : List Nat :=
  encInt 2 apiKey ++ encInt 2 0 ++ encInt 4 m.correlation_id ++
    stringEnc m.client_id ++ c.enc m.request_message

/-- `RequestMessage<T>::decode`: read the api key and `assert_eq!` it against the
type's constant, read the version and `assert_eq!(api_version, 0)`, then decode
correlation id, client id and payload. -/
def reqMsgDec (apiKey : Int) (c : Codec α) (l : List Nat) :
    Except DecErr (RequestMessage α × List Nat) :=
  match decInt 2 l with
  | .error e => .error e
  | .ok (k, r1) =>
    if k ≠ apiKey then .error (.assertFail "api_key == Request api_key")
    else
      match decInt 2 r1 with
      | .error e => .error e
      | .ok (v, r2) =>
        if v ≠ 0 then .error (.assertFail "api_version == 0")
        else
          match decInt 4 r2 with
          | .error e => .error e
          | .ok (cid, r3) =>
            match stringDec r3 with
            | .error e => .error e
            | .ok (cl, r4) =>
              match c.dec r4 with
              | .error e => .error e
              | .ok (msg, r5) => .ok (⟨cid, cl, msg⟩, r5)

/-- `RequestMessage<T>::size`: the left-associated i32 sum of the two i16 header
widths, the i32 correlation-id width, the client id's size and the payload's. -/
def reqMsgSize (c : Codec α) (m : RequestMessage α) : Int :=
  addI32 (addI32 (addI32 (addI32 2 2) 4) (stringSize m.client_id))
    (c.size m.request_message)

def reqMsgC (apiKey : Int) (c : Codec α) : Codec (RequestMessage α) :=
  ⟨reqMsgEnc apiKey c, reqMsgDec apiKey c, reqMsgSize c⟩

/-- `struct ResponseMessage<T>`. -/
structure ResponseMessage (α : Type) where
  correlation_id : Int
  response : α
deriving Repr, DecidableEq

def respMsgEnc (c : Codec α) (m : ResponseMessage α) : List Nat :=
  encInt 4 m.correlation_id ++ c.enc m.response

def respMsgDec (c : Codec α) (l : List Nat) :
    Except DecErr (ResponseMessage α × List Nat) :=
  match decInt 4 l with
  | .error e => .error e
  | .ok (cid, r1) =>
    match c.dec r1 with
    | .error e => .error e
    | .ok (resp, r2) => .ok (⟨cid, resp⟩, r2)

/-- `ResponseMessage<T>::size`: `(0i32).size() + self.response.size()`, i32 sum. -/
def respMsgSize (c : Codec α) (m : ResponseMessage α) : Int :=
  addI32 4 (c.size m.response)

def respMsgC (c : Codec α) : Codec (ResponseMessage α) :=
  ⟨respMsgEnc c, respMsgDec c, respMsgSize c⟩

/-- `struct MetadataRequest { topic_names: Vec<String> }`, with the codec the
`kafka_datastructures!` macro derives for it (field-by-field composition). -/
structure MetadataRequest where
  topic_names : List (List Nat)
deriving Repr, DecidableEq

def metadataRequestC : Codec MetadataRequest :=
  ⟨fun m => vecEnc stringC m.topic_names,
   fun l =>
     match vecDec stringC l with
     | .error e => .error e
     | .ok (ts, r) => .ok (⟨ts⟩, r),
   fun m => addI32 0 (vecSize stringC m.topic_names)⟩

/-- `impl Request for MetadataRequest { fn api_key(..) -> i16 { 3 } }`. -/
def metadataApiKey : Int := 3

/-- `enum Error` (the protocol error-code enumeration; code 13 is unassigned). -/
inductive Error : Type
  | Unknown
  | NoError
  | OffsetOutOfRange
  | InvalidMessage
  | UnknownTopicOrPartition
  | InvalidMessageSize
  | LeaderNotAvailable
  | NotLeaderForPartition
  | RequestTimedOut
  | BrokerNotAvailable
  | ReplicaNotAvailable
  | MessageSizeTooLarge
  | StaleControllerEpochCode
  | OffsetMetadataTooLargeCode
  | OffsetsLoadInProgressCode
  | ConsumerCoordinatorNotAvailableCode
  | NotCoordinatorForConsumerCode
deriving Repr, DecidableEq

/-- `impl FromPrimitive for Error`, `fn from_i64`. -/
def Error.from_i64 (n : Int) : Option Error :=
  match n with
  | 0 => some .NoError
  | 1 => some .OffsetOutOfRange
  | 2 => some .InvalidMessage
  | 3 => some .UnknownTopicOrPartition
  | 4 => some .InvalidMessageSize
  | 5 => some .LeaderNotAvailable
  | 6 => some .NotLeaderForPartition
  | 7 => some .RequestTimedOut
  | 8 => some .BrokerNotAvailable
  | 9 => some .ReplicaNotAvailable
  | 10 => some .MessageSizeTooLarge
  | 11 => some .StaleControllerEpochCode
  | 12 => some .OffsetMetadataTooLargeCode
  | 14 => some .OffsetsLoadInProgressCode
  | 15 => some .ConsumerCoordinatorNotAvailableCode
  | 16 => some .NotCoordinatorForConsumerCode
  | -1 => some .Unknown
  | _ => none

/-! ### Basic byte-level lemmas -/

lemma natBE_length (w n : Nat) : (natBE w n).length = w := by
  induction w generalizing n with
  | zero => rfl
  | succ k ih => simp [natBE, ih]

lemma natFromBE_append_single (l : List Nat) (b : Nat) :
    natFromBE (l ++ [b]) = natFromBE l * 256 + b := by
  simp [natFromBE, List.foldl_append]

lemma natFromBE_natBE (w n : Nat) (h : n < 2 ^ (8 * w)) :
    natFromBE (natBE w n) = n := by
  induction w generalizing n with
  | zero =>
    simp only [Nat.mul_zero, pow_zero, Nat.lt_one_iff] at h
    simp [natBE, natFromBE, h]
  | succ k ih =>
    have hdiv : n / 256 < 2 ^ (8 * k) := by
      have h256 : (0 : Nat) < 256 := by norm_num
      rw [Nat.div_lt_iff_lt_mul h256]
      calc n < 2 ^ (8 * (k + 1)) := h
        _ = 2 ^ (8 * k) * 256 := by ring
    rw [natBE, natFromBE_append_single, ih _ hdiv]
    omega

lemma encInt_length (w : Nat) (v : Int) : (encInt w v).length = w := by
  simp [encInt, natBE_length]

lemma wrapN_lt (w : Nat) (v : Int) : wrapN w v < 2 ^ (8 * w) := by
  unfold wrapN
  have hpos : (0 : Int) < ((2 ^ (8 * w) : Nat) : Int) := by positivity
  have h1 := Int.emod_nonneg v (ne_of_gt hpos)
  have h2 := Int.emod_lt_of_pos v hpos
  set N : Nat := 2 ^ (8 * w) with hN
  zify
  rw [Int.toNat_of_nonneg h1]
  exact h2

lemma readExact_append (a b : List Nat) : readExact a.length (a ++ b) = .ok (a, b) := by
  simp [readExact, List.take_left, List.drop_left]

lemma readExact_short (n : Nat) (l : List Nat) (h : l.length < n) :
    readExact n l = .error .eof := by
  simp [readExact]
  omega

lemma readExact_append2 (n : Nat) (a b : List Nat) (h : a.length = n) :
    readExact n (a ++ b) = .ok (a, b) := by
  subst h
  exact readExact_append a b

lemma decInt_enc (w : Nat) (v : Int) (rest : List Nat) :
    decInt w (encInt w v ++ rest) = .ok (toSigned w (wrapN w v), rest) := by
  unfold decInt
  rw [readExact_append2 w (encInt w v) rest (encInt_length w v)]
  simp [encInt, natFromBE_natBE w _ (wrapN_lt w v)]

lemma decInt_short (w : Nat) (l : List Nat) (h : l.length < w) :
    decInt w l = .error .eof := by
  unfold decInt
  rw [readExact_short w l h]

/-! ### Wrapping and cast lemmas at the concrete widths -/

lemma toSigned_wrapN1 (v : Int) (h1 : -128 ≤ v) (h2 : v < 128) :
    toSigned 1 (wrapN 1 v) = v := by
  simp only [toSigned, wrapN]
  norm_num
  split_ifs <;> omega

lemma toSigned_wrapN2 (v : Int) (h1 : -32768 ≤ v) (h2 : v < 32768) :
    toSigned 2 (wrapN 2 v) = v := by
  simp only [toSigned, wrapN]
  norm_num
  split_ifs <;> omega

lemma toSigned_wrapN4 (v : Int) (h1 : -2147483648 ≤ v) (h2 : v < 2147483648) :
    toSigned 4 (wrapN 4 v) = v := by
  simp only [toSigned, wrapN]
  norm_num
  split_ifs <;> omega

lemma toSigned_wrapN8 (v : Int)
    (h1 : -9223372036854775808 ≤ v) (h2 : v < 9223372036854775808) :
    toSigned 8 (wrapN 8 v) = v := by
  simp only [toSigned, wrapN]
  norm_num
  split_ifs <;> omega

lemma decInt1_enc (v : Int) (h1 : -128 ≤ v) (h2 : v < 128) (rest : List Nat) :
    decInt 1 (encInt 1 v ++ rest) = .ok (v, rest) := by
  rw [decInt_enc, toSigned_wrapN1 v h1 h2]

lemma decInt2_enc (v : Int) (h1 : -32768 ≤ v) (h2 : v < 32768) (rest : List Nat) :
    decInt 2 (encInt 2 v ++ rest) = .ok (v, rest) := by
  rw [decInt_enc, toSigned_wrapN2 v h1 h2]

lemma decInt4_enc (v : Int) (h1 : -2147483648 ≤ v) (h2 : v < 2147483648) (rest : List Nat) :
    decInt 4 (encInt 4 v ++ rest) = .ok (v, rest) := by
  rw [decInt_enc, toSigned_wrapN4 v h1 h2]

lemma decInt8_enc (v : Int)
    (h1 : -9223372036854775808 ≤ v) (h2 : v < 9223372036854775808) (rest : List Nat) :
    decInt 8 (encInt 8 v ++ rest) = .ok (v, rest) := by
  rw [decInt_enc, toSigned_wrapN8 v h1 h2]

lemma asI16_small (n : Nat) (h : n < 32768) : asI16 n = (n : Int) := by
  simp only [asI16, toSigned]
  norm_num
  omega

lemma asI32_small (n : Nat) (h : n < 2147483648) : asI32 n = (n : Int) := by
  simp only [asI32, toSigned]
  norm_num
  omega

lemma asUint_natCast (n : Nat) (h : n < 18446744073709551616) : asUint (n : Int) = n := by
  simp only [asUint]
  norm_num
  omega

lemma asUint_neg (v : Int) (h1 : -2147483648 ≤ v) (h2 : v < 0) :
    asUint v = (18446744073709551616 + v).toNat := by
  simp only [asUint]
  norm_num
  omega

lemma addI32_exact (a b : Int) (h1 : -2147483648 ≤ a + b) (h2 : a + b < 2147483648) :
    addI32 a b = a + b := by
  unfold addI32 wrapI32
  exact toSigned_wrapN4 (a + b) h1 h2

lemma wrapI32_emod (x : Int) : wrapI32 x % 4294967296 = x % 4294967296 := by
  simp only [wrapI32, toSigned, wrapN]
  norm_num
  split_ifs <;> omega

lemma wrapI32_congr (x y : Int) (h : x % 4294967296 = y % 4294967296) :
    wrapI32 x = wrapI32 y := by
  simp only [wrapI32, toSigned, wrapN]
  norm_num
  split_ifs <;> omega

lemma addI32_wrap_left (x y : Int) : addI32 (wrapI32 x) y = wrapI32 (x + y) := by
  unfold addI32
  apply wrapI32_congr
  have h := wrapI32_emod x
  omega

/-! ### Well-formedness of Rust values

Each predicate states the invariants every value of the corresponding Rust type
satisfies, together with the spec's stated caller contract that encoded lengths
fit the signed width of their wire length field (spec section 4.2). -/

def I8Rg (v : Int) : Prop := -128 ≤ v ∧ v < 128

def I16Rg (v : Int) : Prop := -32768 ≤ v ∧ v < 32768

def I32Rg (v : Int) : Prop := -2147483648 ≤ v ∧ v < 2147483648

def I64Rg (v : Int) : Prop := -9223372036854775808 ≤ v ∧ v < 9223372036854775808

def StrWF (s : List Nat) : Prop := utf8Valid s = true ∧ s.length < 32768

def OptStrWF : Option (List Nat) → Prop
  | some s => StrWF s
  | none => True

def BytesWF (b : List Nat) : Prop := b.length < 2147483648

def OptBytesWF : Option (List Nat) → Prop
  | some b => BytesWF b
  | none => True

def VecWF (WF : α → Prop) (xs : List α) : Prop :=
  (∀ x ∈ xs, WF x) ∧ xs.length < 2147483648

def WithSzWF (c : Codec α) (WF : α → Prop) (v : α) : Prop :=
  WF v ∧ c.size v < 2147483648

def ReqWF (WF : α → Prop) (m : RequestMessage α) : Prop :=
  I32Rg m.correlation_id ∧ StrWF m.client_id ∧ WF m.request_message

def RespWF (WF : α → Prop) (m : ResponseMessage α) : Prop :=
  I32Rg m.correlation_id ∧ WF m.response

/-! Size-bounded well-formedness: since every `size()` is computed in wrapping
i32 arithmetic, the size/encode duality additionally needs the aggregate
encoded size to fit in i32 (the spec's caller contract); at larger sizes the
program's `size()` wraps and the duality fails (see the C1 counterexample). -/

def BytesSzWF (b : List Nat) : Prop := b.length < 2147483644

def OptBytesSzWF : Option (List Nat) → Prop
  | some b => BytesSzWF b
  | none => True

def VecSzWF (c : Codec α) (WF : α → Prop) (xs : List α) : Prop :=
  (∀ x ∈ xs, WF x) ∧ xs.length < 2147483648 ∧ 4 + (xs.map c.size).sum < 2147483648

def WithSizeSzWF (c : Codec α) (WF : α → Prop) (v : α) : Prop :=
  WF v ∧ 4 + c.size v < 2147483648

def ReqSzWF (c : Codec α) (WF : α → Prop) (m : RequestMessage α) : Prop :=
  ReqWF WF m ∧ 8 + stringSize m.client_id + c.size m.request_message < 2147483648

def RespSzWF (c : Codec α) (WF : α → Prop) (m : ResponseMessage α) : Prop :=
  RespWF WF m ∧ 4 + c.size m.response < 2147483648

/-- Invariant I1 for a codec: on well-formed values the size is non-negative and
equals the number of bytes a successful encode writes. -/
def SizeOk (c : Codec α) (WF : α → Prop) : Prop :=
  ∀ v, WF v → 0 ≤ c.size v ∧ ((c.enc v).length : Int) = c.size v

/-- Round-trip for a codec: on well-formed values, decoding a stream that starts
with `enc v` succeeds, returns `v`, and leaves exactly the following bytes. -/
def DecOk (c : Codec α) (WF : α → Prop) : Prop :=
  ∀ v rest, WF v → c.dec (c.enc v ++ rest) = .ok (v, rest)

/-! ### The fixed-width integer codecs -/

lemma sizeOk_intC (w : Nat) : SizeOk (intC w) (fun _ => True) := by
  intro v _
  constructor
  · exact Int.natCast_nonneg w
  · simp [intC, encInt_length]

lemma decOk_i8C : DecOk i8C I8Rg := by
  rintro v rest ⟨h1, h2⟩
  exact decInt1_enc v h1 h2 rest

lemma decOk_i16C : DecOk i16C I16Rg := by
  rintro v rest ⟨h1, h2⟩
  exact decInt2_enc v h1 h2 rest

lemma decOk_i32C : DecOk i32C I32Rg := by
  rintro v rest ⟨h1, h2⟩
  exact decInt4_enc v h1 h2 rest

lemma decOk_i64C : DecOk i64C I64Rg := by
  rintro v rest ⟨h1, h2⟩
  exact decInt8_enc v h1 h2 rest

/-! ### The string and byte-array codecs -/

lemma stringSize_eq (s : List Nat) (hlen : s.length < 32768) :
    stringSize s = 2 + (s.length : Int) := by
  have h32 : s.length < 2147483648 := by omega
  unfold stringSize
  rw [asI32_small s.length h32]
  exact addI32_exact 2 (s.length : Int) (by omega) (by omega)

lemma sizeOk_string : SizeOk stringC StrWF := by
  rintro s ⟨_, hlen⟩
  constructor
  · show 0 ≤ stringSize s
    rw [stringSize_eq s hlen]
    omega
  · show ((stringEnc s).length : Int) = stringSize s
    rw [stringSize_eq s hlen]
    simp only [stringEnc, List.length_append, encInt_length]
    push_cast
    ring

lemma decOk_string : DecOk stringC StrWF := by
  rintro s rest ⟨hu, hlen⟩
  show stringDec (stringEnc s ++ rest) = .ok (s, rest)
  unfold stringDec stringEnc
  rw [List.append_assoc, asI16_small s.length hlen,
    decInt2_enc (s.length : Int) (by omega) (by omega) (s ++ rest)]
  have hneg : ¬ ((s.length : Int) < 0) := by omega
  simp [asUint_natCast s.length (by omega), readExact_append, hneg, hu]

lemma sizeOk_optString : SizeOk optStringC OptStrWF := by
  intro os h
  match os with
  | some s =>
    obtain ⟨_, hlen⟩ := h
    have he : optStringSize (some s) = stringSize s := rfl
    constructor
    · show 0 ≤ optStringSize (some s)
      rw [he, stringSize_eq s hlen]
      omega
    · show ((optStringEnc (some s)).length : Int) = optStringSize (some s)
      rw [he, stringSize_eq s hlen]
      simp only [optStringEnc, List.length_append, encInt_length]
      push_cast
      ring
  | none =>
    constructor
    · show 0 ≤ optStringSize none
      decide
    · show ((optStringEnc none).length : Int) = optStringSize none
      decide

lemma decOk_optString : DecOk optStringC OptStrWF := by
  intro os rest h
  match os with
  | some s =>
    obtain ⟨hu, hlen⟩ := h
    show optStringDec (optStringEnc (some s) ++ rest) = .ok (some s, rest)
    unfold optStringDec optStringEnc
    rw [List.append_assoc, asI16_small s.length hlen,
      decInt2_enc (s.length : Int) (by omega) (by omega) (s ++ rest)]
    have h1 : ¬ ((s.length : Int) < -1) := by omega
    have h2 : ¬ ((s.length : Int) = -1) := by omega
    simp [asUint_natCast s.length (by omega), h1, h2, readExact_append, hu]
  | none =>
    show optStringDec (optStringEnc none ++ rest) = .ok (none, rest)
    unfold optStringDec optStringEnc
    rw [decInt2_enc (-1) (by norm_num) (by norm_num) rest]
    norm_num

lemma bytesSize_eq (b : List Nat) (h : b.length < 2147483644) :
    bytesSize b = 4 + (b.length : Int) := by
  unfold bytesSize
  rw [asI32_small b.length (by omega)]
  exact addI32_exact 4 (b.length : Int) (by omega) (by omega)

lemma sizeOk_bytes : SizeOk bytesC BytesSzWF := by
  intro b hlen
  have h : b.length < 2147483644 := hlen
  constructor
  · show 0 ≤ bytesSize b
    rw [bytesSize_eq b h]
    omega
  · show ((bytesEnc b).length : Int) = bytesSize b
    rw [bytesSize_eq b h]
    simp only [bytesEnc, List.length_append, encInt_length]
    push_cast
    ring

lemma decOk_bytes : DecOk bytesC BytesWF := by
  intro b rest hlen
  show bytesDec (bytesEnc b ++ rest) = .ok (b, rest)
  unfold bytesDec bytesEnc
  have h32 : b.length < 2147483648 := hlen
  rw [List.append_assoc, asI32_small b.length h32,
    decInt4_enc (b.length : Int) (by omega) (by omega) (b ++ rest)]
  have hneg : ¬ ((b.length : Int) < 0) := by omega
  simp [asUint_natCast b.length (by omega), hneg, readExact_append]

lemma sizeOk_optBytes : SizeOk optBytesC OptBytesSzWF := by
  intro ob h
  match ob with
  | some b =>
    have hb : b.length < 2147483644 := h
    have he : optBytesSize (some b) = bytesSize b := rfl
    constructor
    · show 0 ≤ optBytesSize (some b)
      rw [he, bytesSize_eq b hb]
      omega
    · show ((optBytesEnc (some b)).length : Int) = optBytesSize (some b)
      rw [he, bytesSize_eq b hb]
      simp only [optBytesEnc, List.length_append, encInt_length]
      push_cast
      ring
  | none =>
    constructor
    · show 0 ≤ optBytesSize none
      decide
    · show ((optBytesEnc none).length : Int) = optBytesSize none
      decide

lemma decOk_optBytes : DecOk optBytesC OptBytesWF := by
  intro ob rest h
  match ob with
  | some b =>
    show optBytesDec (optBytesEnc (some b) ++ rest) = .ok (some b, rest)
    unfold optBytesDec optBytesEnc
    have h32 : b.length < 2147483648 := h
    rw [List.append_assoc, asI32_small b.length h32,
      decInt4_enc (b.length : Int) (by omega) (by omega) (b ++ rest)]
    have h1 : ¬ ((b.length : Int) < -1) := by omega
    have h2 : ¬ ((b.length : Int) = -1) := by omega
    simp [asUint_natCast b.length (by omega), h1, h2, readExact_append]
  | none =>
    show optBytesDec (optBytesEnc none ++ rest) = .ok (none, rest)
    unfold optBytesDec optBytesEnc
    rw [decInt4_enc (-1) (by norm_num) (by norm_num) rest]
    norm_num

/-! ### The container codec `Vec<T>` -/

lemma map_size_sum_nonneg (c : Codec α) (xs : List α) (h : ∀ x ∈ xs, 0 ≤ c.size x) :
    0 ≤ (xs.map c.size).sum := by
  induction xs with
  | nil => simp
  | cons x xs ih =>
    have h1 := h x (by simp)
    have h2 := ih (fun y hy => h y (by simp [hy]))
    simp only [List.map_cons, List.sum_cons]
    omega

lemma foldl_addI32_exact (c : Codec α) (xs : List α) :
    ∀ a : Int, 0 ≤ a → (∀ x ∈ xs, 0 ≤ c.size x) →
      a + (xs.map c.size).sum < 2147483648 →
      xs.foldl (fun sum x => addI32 sum (c.size x)) a = a + (xs.map c.size).sum := by
  induction xs with
  | nil =>
    intro a _ _ _
    simp
  | cons x xs ih =>
    intro a ha hx hb
    have hx0 : 0 ≤ c.size x := hx x (by simp)
    have hxs : ∀ y ∈ xs, 0 ≤ c.size y := fun y hy => hx y (by simp [hy])
    have hsum0 : 0 ≤ (xs.map c.size).sum := map_size_sum_nonneg c xs hxs
    simp only [List.map_cons, List.sum_cons] at hb ⊢
    simp only [List.foldl_cons]
    rw [addI32_exact a (c.size x) (by omega) (by omega),
      ih (a + c.size x) (by omega) hxs (by omega)]
    ring

lemma foldl_addI32_wrap (c : Codec α) (xs : List α) :
    ∀ a : Int, xs.foldl (fun sum x => addI32 sum (c.size x)) (wrapI32 a) =
      wrapI32 (a + (xs.map c.size).sum) := by
  induction xs with
  | nil =>
    intro a
    simp only [List.foldl_nil, List.map_nil, List.sum_nil, add_zero]
  | cons x xs ih =>
    intro a
    simp only [List.foldl_cons, List.map_cons, List.sum_cons]
    rw [addI32_wrap_left a (c.size x), ih (a + c.size x)]
    congr 1
    ring

lemma vec_enc_length (c : Codec α) (WF : α → Prop) (h : SizeOk c WF) (xs : List α)
    (hall : ∀ x ∈ xs, WF x) :
    (((xs.map c.enc).flatten.length : Nat) : Int) = (xs.map c.size).sum ∧
      0 ≤ (xs.map c.size).sum := by
  induction xs with
  | nil => simp
  | cons x xs ih =>
    obtain ⟨h1, h2⟩ := h x (hall x (by simp))
    obtain ⟨ih1, ih2⟩ := ih (fun y hy => hall y (by simp [hy]))
    refine ⟨?_, by simp only [List.map_cons, List.sum_cons]; omega⟩
    simp only [List.map_cons, List.flatten_cons, List.length_append, List.sum_cons]
    push_cast
    omega

lemma sizeOk_vec (c : Codec α) (WF : α → Prop) (h : SizeOk c WF) :
    SizeOk (vecC c) (VecSzWF c WF) := by
  rintro xs ⟨hall, hlen, hsz⟩
  have hx : ∀ x ∈ xs, 0 ≤ c.size x := fun x hmem => (h x (hall x hmem)).1
  have hfold := foldl_addI32_exact c xs 4 (by norm_num) hx hsz
  obtain ⟨hsum, hpos⟩ := vec_enc_length c WF h xs hall
  constructor
  · show 0 ≤ vecSize c xs
    unfold vecSize
    rw [hfold]
    omega
  · show ((vecEnc c xs).length : Int) = vecSize c xs
    unfold vecEnc vecSize
    rw [hfold]
    simp only [List.length_append, encInt_length]
    push_cast
    omega

lemma decN_flatten (c : Codec α) (WF : α → Prop) (hdec : DecOk c WF) (xs : List α)
    (hall : ∀ x ∈ xs, WF x) (rest : List Nat) :
    decN c xs.length ((xs.map c.enc).flatten ++ rest) = .ok (xs, rest) := by
  induction xs generalizing rest with
  | nil => simp [decN]
  | cons x xs ih =>
    have hx := hdec x ((xs.map c.enc).flatten ++ rest) (hall x (by simp))
    have hxs := ih (fun y hy => hall y (by simp [hy])) rest
    simp only [List.map_cons, List.flatten_cons, List.append_assoc, List.length_cons,
      decN, hx, hxs]

lemma decOk_vec (c : Codec α) (WF : α → Prop) (h : DecOk c WF) :
    DecOk (vecC c) (VecWF WF) := by
  rintro xs rest ⟨hall, hlen⟩
  show vecDec c (vecEnc c xs ++ rest) = .ok (xs, rest)
  unfold vecDec vecEnc
  rw [List.append_assoc, asI32_small xs.length hlen,
    decInt4_enc (xs.length : Int) (by omega) (by omega) _]
  have hneg : ¬ ((xs.length : Int) < 0) := by omega
  simp [hneg, asUint_natCast xs.length (by omega), decN_flatten c WF h xs hall rest]

/-! ### The length-framing wrapper `WithSize<T>` -/

lemma sizeOk_withSize (c : Codec α) (WF : α → Prop) (h : SizeOk c WF) :
    SizeOk (withSizeC c) (WithSizeSzWF c WF) := by
  rintro v ⟨hv, hb⟩
  obtain ⟨h0, hlen⟩ := h v hv
  have ha : withSizeSize c v = 4 + c.size v := by
    unfold withSizeSize
    exact addI32_exact 4 (c.size v) (by omega) (by omega)
  constructor
  · show 0 ≤ withSizeSize c v
    rw [ha]
    omega
  · show ((withSizeEnc c v).length : Int) = withSizeSize c v
    rw [ha]
    unfold withSizeEnc
    simp only [List.length_append, encInt_length]
    push_cast
    omega

lemma decOk_withSize (c : Codec α) (WF : α → Prop) (hs : SizeOk c WF) (hd : DecOk c WF) :
    DecOk (withSizeC c) (WithSzWF c WF) := by
  rintro v rest ⟨hv, hbound⟩
  obtain ⟨h0, hlen⟩ := hs v hv
  show withSizeDec c (withSizeEnc c v ++ rest) = .ok (v, rest)
  unfold withSizeDec withSizeEnc
  rw [List.append_assoc, decInt4_enc (c.size v) (by omega) (by omega) _]
  have hn : asUint (c.size v) = (c.enc v).length := by
    rw [← hlen]
    exact asUint_natCast _ (by omega)
  have hin : c.dec (c.enc v) = .ok (v, []) := by
    have h1 := hd v [] hv
    simpa using h1
  simp [hn, List.take_left, List.drop_left, hin]

/-! ### The message envelopes -/

lemma sizeOk_reqMsg (k : Int) (c : Codec α) (WF : α → Prop) (h : SizeOk c WF) :
    SizeOk (reqMsgC k c) (ReqSzWF c WF) := by
  rintro m ⟨⟨hc, ⟨hu, hlen⟩, hm⟩, hb⟩
  obtain ⟨h0, hl⟩ := h m.request_message hm
  have hs := stringSize_eq m.client_id hlen
  have ha : reqMsgSize c m = 8 + stringSize m.client_id + c.size m.request_message := by
    unfold reqMsgSize
    rw [(by decide : addI32 2 2 = (4 : Int)), (by decide : addI32 4 4 = (8 : Int)),
      addI32_exact 8 (stringSize m.client_id) (by omega) (by omega),
      addI32_exact (8 + stringSize m.client_id) (c.size m.request_message)
        (by omega) (by omega)]
  constructor
  · show 0 ≤ reqMsgSize c m
    rw [ha]
    omega
  · show ((reqMsgEnc k c m).length : Int) = reqMsgSize c m
    rw [ha, hs]
    unfold reqMsgEnc stringEnc
    simp only [List.length_append, encInt_length]
    push_cast
    omega

lemma decOk_reqMsg (k : Int) (hk : I16Rg k) (c : Codec α) (WF : α → Prop)
    (hd : DecOk c WF) : DecOk (reqMsgC k c) (ReqWF WF) := by
  rintro m rest ⟨⟨hc1, hc2⟩, hstr, hm⟩
  show reqMsgDec k c (reqMsgEnc k c m ++ rest) = .ok (m, rest)
  unfold reqMsgDec reqMsgEnc
  simp only [List.append_assoc]
  rw [decInt2_enc k hk.1 hk.2]
  simp only [ne_eq, not_true_eq_false, if_false, ite_false]
  rw [decInt2_enc 0 (by norm_num) (by norm_num)]
  simp only [ne_eq, not_true_eq_false, if_false, ite_false]
  rw [decInt4_enc m.correlation_id hc1 hc2]
  have hs := decOk_string m.client_id (c.enc m.request_message ++ rest) hstr
  simp only [stringC] at hs
  simp only [hs, hd m.request_message rest hm]

lemma sizeOk_respMsg (c : Codec α) (WF : α → Prop) (h : SizeOk c WF) :
    SizeOk (respMsgC c) (RespSzWF c WF) := by
  rintro m ⟨⟨hc, hm⟩, hb⟩
  obtain ⟨h0, hl⟩ := h m.response hm
  have ha : respMsgSize c m = 4 + c.size m.response := by
    unfold respMsgSize
    exact addI32_exact 4 (c.size m.response) (by omega) (by omega)
  constructor
  · show 0 ≤ respMsgSize c m
    rw [ha]
    omega
  · show ((respMsgEnc c m).length : Int) = respMsgSize c m
    rw [ha]
    unfold respMsgEnc
    simp only [List.length_append, encInt_length]
    push_cast
    omega

lemma decOk_respMsg (c : Codec α) (WF : α → Prop) (hd : DecOk c WF) :
    DecOk (respMsgC c) (RespWF WF) := by
  rintro m rest ⟨⟨hc1, hc2⟩, hm⟩
  show respMsgDec c (respMsgEnc c m ++ rest) = .ok (m, rest)
  unfold respMsgDec respMsgEnc
  simp only [List.append_assoc]
  rw [decInt4_enc m.correlation_id hc1 hc2]
  simp only [hd m.response rest hm]

/-! ### Frame misdeclaration lemmas for `WithSize<T>` -/

lemma asUint_add_one (L : Nat) (h : (L : Int) + 1 < 2147483648) :
    asUint ((L : Int) + 1) = L + 1 := by
  have h1 : ((L : Int) + 1) = ((L + 1 : Nat) : Int) := by push_cast; ring
  rw [h1]
  exact asUint_natCast _ (by omega)

lemma asUint_sub_one (L : Nat) (h1 : 1 ≤ L) (h2 : (L : Int) < 2147483648) :
    asUint ((L : Int) - 1) = L - 1 := by
  have he : ((L : Int) - 1) = ((L - 1 : Nat) : Int) := by
    push_cast [h1]
    ring
  rw [he]
  exact asUint_natCast _ (by omega)

/-- Over-declared frame: the declared length is one more than the true encoding of
`v`; the bounded decode of the inner value leaves one byte of quota, so the
`assert_eq!(limit(), 0)` fails. -/
lemma withSizeDec_over (c : Codec α) (v : α) (x : Nat) (future : List Nat)
    (hrt : ∀ rest, c.dec (c.enc v ++ rest) = .ok (v, rest))
    (hlen : ((c.enc v).length : Int) + 1 < 2147483648) :
    withSizeDec c (encInt 4 (((c.enc v).length : Int) + 1) ++ (c.enc v ++ x :: future)) =
      .error (.assertFail "limit == 0") := by
  unfold withSizeDec
  rw [decInt4_enc (((c.enc v).length : Int) + 1) (by omega) (by omega)]
  have htake : (c.enc v ++ x :: future).take ((c.enc v).length + 1) = c.enc v ++ [x] := by
    rw [List.take_append_eq_append_take, List.take_of_length_le (by omega)]
    simp
  have hx := hrt [x]
  have hcond : ¬ ((c.enc v).length + 1 - ((c.enc v ++ [x]).length - ([x] : List Nat).length)
      = 0) := by
    simp
  simp only [asUint_add_one _ hlen, htake, hx, if_neg hcond]

/-- Under-declared frame: the declared length is one less than the true encoding
of `v`; the bounded reader truncates the inner encoding, so the inner decode
fails (hypothesis `htrunc`: every strict prefix of the true encoding fails). -/
lemma withSizeDec_under (c : Codec α) (v : α) (future : List Nat)
    (htrunc : ∀ k, k < (c.enc v).length → ∃ e, c.dec ((c.enc v).take k) = .error e)
    (hpos : 1 ≤ (c.enc v).length) (hlen : ((c.enc v).length : Int) < 2147483648) :
    ∃ e, withSizeDec c (encInt 4 (((c.enc v).length : Int) - 1) ++ (c.enc v ++ future)) =
      .error e := by
  unfold withSizeDec
  rw [decInt4_enc (((c.enc v).length : Int) - 1) (by omega) (by omega)]
  have htake : (c.enc v ++ future).take ((c.enc v).length - 1) =
      (c.enc v).take ((c.enc v).length - 1) := by
    rw [List.take_append_eq_append_take]
    have h0 : (c.enc v).length - 1 - (c.enc v).length = 0 := by omega
    simp [h0]
  obtain ⟨e, he⟩ := htrunc ((c.enc v).length - 1) (by omega)
  refine ⟨e, ?_⟩
  simp only [asUint_sub_one _ hpos hlen, htake, he]

/-- On success a sized frame consumes exactly its declared extent: the remaining
stream is the input minus the 4-byte length header and the declared `n` bytes;
bytes of subsequent frames are never consumed. -/
lemma withSizeDec_bounded (c : Codec α) (l : List Nat) (v : α) (r : List Nat)
    (h : withSizeDec c l = .ok (v, r)) :
    ∃ size : Int, decInt 4 l = .ok (size, l.drop 4) ∧ r = l.drop (4 + asUint size) := by
  unfold withSizeDec at h
  cases hdec : decInt 4 l with
  | error e => rw [hdec] at h; exact absurd h (by simp)
  | ok p =>
    obtain ⟨size, r1⟩ := p
    have hr1 : r1 = l.drop 4 := by
      unfold decInt readExact at hdec
      by_cases h4 : 4 ≤ l.length
      · simp [h4] at hdec
        exact hdec.2.symm
      · simp [h4] at hdec
    rw [hdec] at h
    simp only at h
    cases hin : c.dec (r1.take (asUint size)) with
    | error e => rw [hin] at h; exact absurd h (by simp)
    | ok q =>
      obtain ⟨v2, leftover⟩ := q
      rw [hin] at h
      simp only at h
      by_cases hz : asUint size - ((r1.take (asUint size)).length - leftover.length) = 0
      · rw [if_pos hz] at h
        have hle : (r1.take (asUint size)).length ≤ asUint size := by
          simp [List.length_take]
        have hcons : (r1.take (asUint size)).length - leftover.length = asUint size := by
          omega
        refine ⟨size, ?_, ?_⟩
        · rw [hr1] at hdec ⊢
        · rw [hcons] at h
          simp only [Except.ok.injEq, Prod.mk.injEq] at h
          rw [← h.2, hr1, List.drop_drop]
      · rw [if_neg hz] at h
        exact absurd h (by simp)

/-! ### Sentinel-boundary lemmas for the optional decoders -/

lemma asUint_zero : asUint 0 = 0 := by decide

lemma asUint_toNat (v : Int) (h0 : 0 ≤ v) (h1 : v < 2147483648) : asUint v = v.toNat := by
  simp only [asUint]
  norm_num
  omega

lemma optStringDec_neg1 (rest : List Nat) :
    optStringDec (encInt 2 (-1) ++ rest) = .ok (none, rest) := by
  unfold optStringDec
  rw [decInt2_enc (-1) (by norm_num) (by norm_num)]
  norm_num

lemma optStringDec_zero (rest : List Nat) :
    optStringDec (encInt 2 0 ++ rest) = .ok (some [], rest) := by
  unfold optStringDec
  rw [decInt2_enc 0 (by norm_num) (by norm_num)]
  have h0 : readExact (asUint 0) rest = .ok ([], rest) := by
    rw [asUint_zero]
    simp [readExact]
  have hu : utf8Valid [] = true := rfl
  simp [h0, hu]

lemma optStringDec_belowNeg1 (v : Int) (h1 : -32768 ≤ v) (h2 : v < -1) (rest : List Nat) :
    optStringDec (encInt 2 v ++ rest) = .error (.assertFail "size >= -1") := by
  unfold optStringDec
  rw [decInt2_enc v (by omega) (by omega)]
  simp only [if_pos h2]

lemma typesOptStringDec_belowNeg1 (v : Int) (h1 : -32768 ≤ v) (h2 : v < -1)
    (rest : List Nat) (hrest : rest.length < 18446744073709518848) :
    typesOptStringDec (encInt 2 v ++ rest) = .error .eof := by
  unfold typesOptStringDec
  rw [decInt2_enc v (by omega) (by omega)]
  have hne : v ≠ -1 := by omega
  have hbig : rest.length < asUint v := by
    rw [asUint_neg v (by omega) (by omega)]
    omega
  simp only [if_neg hne, readExact_short _ _ hbig]

lemma optBytesDec_neg1 (rest : List Nat) :
    optBytesDec (encInt 4 (-1) ++ rest) = .ok (none, rest) := by
  unfold optBytesDec
  rw [decInt4_enc (-1) (by norm_num) (by norm_num)]
  norm_num

lemma optBytesDec_zero (rest : List Nat) :
    optBytesDec (encInt 4 0 ++ rest) = .ok (some [], rest) := by
  unfold optBytesDec
  rw [decInt4_enc 0 (by norm_num) (by norm_num)]
  have h0 : readExact (asUint 0) rest = .ok ([], rest) := by
    rw [asUint_zero]
    simp [readExact]
  simp [h0]

lemma optBytesDec_belowNeg1 (v : Int) (h1 : -2147483648 ≤ v) (h2 : v < -1)
    (rest : List Nat) :
    optBytesDec (encInt 4 v ++ rest) = .error (.assertFail "size >= -1") := by
  unfold optBytesDec
  rw [decInt4_enc v (by omega) (by omega)]
  simp only [if_pos h2]

/-! ### Envelope key/version mismatch lemmas -/

lemma reqMsgDec_wrongKey (c : Codec α) (ek k : Int) (h2 : I16Rg k)
    (hne : k ≠ ek) (rest : List Nat) :
    reqMsgDec ek c (encInt 2 k ++ rest) =
      .error (.assertFail "api_key == Request api_key") := by
  unfold reqMsgDec
  rw [decInt2_enc k h2.1 h2.2]
  simp [hne]

lemma reqMsgDec_wrongVersion (c : Codec α) (ek vv : Int) (h1 : I16Rg ek) (hv : I16Rg vv)
    (hne : vv ≠ 0) (rest : List Nat) :
    reqMsgDec ek c (encInt 2 ek ++ (encInt 2 vv ++ rest)) =
      .error (.assertFail "api_version == 0") := by
  unfold reqMsgDec
  rw [decInt2_enc ek h1.1 h1.2]
  have hvv := decInt2_enc vv hv.1 hv.2 rest
  simp [hvv, hne]

/-! ### Typed-failure lemmas -/

lemma stringDec_badUtf8 (buffer rest : List Nat) (hlen : buffer.length < 32768)
    (hbad : utf8Valid buffer = false) :
    stringDec (encInt 2 (buffer.length : Int) ++ (buffer ++ rest)) =
      .error (.invalidInput "Problem decoding buffer as utf8") := by
  unfold stringDec
  rw [decInt2_enc _ (by omega) (by omega)]
  have hneg : ¬ ((buffer.length : Int) < 0) := by omega
  simp [asUint_natCast buffer.length (by omega), readExact_append, hneg, hbad]

/-! ### Container-codec lemmas -/

lemma vecEnc_count (c : Codec α) (xs : List α) (h : xs.length < 2147483648) :
    vecEnc c xs = encInt 4 (xs.length : Int) ++ (xs.map c.enc).flatten := by
  unfold vecEnc
  rw [asI32_small _ h]

lemma vecDec_nonneg (c : Codec α) (n : Int) (h0 : 0 ≤ n) (h1 : n < 2147483648)
    (rest : List Nat) :
    vecDec c (encInt 4 n ++ rest) = decN c n.toNat rest := by
  unfold vecDec
  rw [decInt4_enc n (by omega) h1]
  simp only [if_neg (by omega : ¬ (n < 0)), asUint_toNat n h0 h1]

lemma vecDec_neg (c : Codec α) (v : Int) (h1 : -2147483648 ≤ v) (h2 : v < 0)
    (rest : List Nat) :
    vecDec c (encInt 4 v ++ rest) = .error (.assertFail "size >= 0") := by
  unfold vecDec
  rw [decInt4_enc v h1 (by omega)]
  simp only [if_pos h2]

/-- Does this decode failure reach the caller as a typed `IoError` value
(`Err(IoError { kind, desc, .. })`)?  `assertFail` does not: a failed `assert!` /
`assert_eq!` in Rust is a panic that aborts the decode call instead of returning. -/
def isTypedIoError : DecErr → Bool
  | .eof => true
  | .invalidInput _ => true
  | .assertFail _ => false

/-! ## Claims -/

/-- C1 counterexample: size/encode duality fails in the program at large values,
because every `size()` is wrapping i32 arithmetic.  At the 2147483647-byte
`Vec<u8>` (representable on 64-bit), a successful encode writes 2147483651
bytes while `Vec<u8>::size()` computes `4 + (len as i32)` in i32 and wraps to
-2147483645, so the bytes written do not equal `size(v)`. -/
theorem c1_counterexample_size_wraps :
    ((bytesEnc (List.replicate 2147483647 0)).length : Int) = 2147483651 ∧
    bytesSize (List.replicate 2147483647 0) = -2147483645 := by
  constructor
  · simp only [bytesEnc, List.length_append, encInt_length, List.length_replicate]
    norm_num
  · unfold bytesSize
    rw [List.length_replicate]
    decide

/-- C1 amended: size/encode duality (invariant I1) for every well-formed value
of every `KafkaSerializable` type — fixed-width integers (trivially), `String`,
`Option<String>`, `Vec<u8>`, `Option<Vec<u8>>`, and compositionally `Vec<T>`,
`WithSize<T>`, `RequestMessage<T>`, `ResponseMessage<T>` and
`RequestOrResponse<T>` — *whose aggregate encoded size fits in the i32 that
`size()` computes it in* (the spec's caller contract): the number of bytes
written by a successful encode equals `size(v)` exactly and `size(v)` is
non-negative.  Beyond that bound the i32 `size()` wraps (see the
counterexample) and the duality fails in the program. -/
theorem c1_size_encode_duality :
    SizeOk i8C (fun _ => True) ∧ SizeOk i16C (fun _ => True) ∧
    SizeOk i32C (fun _ => True) ∧ SizeOk i64C (fun _ => True) ∧
    SizeOk stringC StrWF ∧ SizeOk optStringC OptStrWF ∧
    SizeOk bytesC BytesSzWF ∧ SizeOk optBytesC OptBytesSzWF ∧
    (∀ (α : Type) (c : Codec α) (WF : α → Prop), SizeOk c WF →
      SizeOk (vecC c) (VecSzWF c WF)) ∧
    (∀ (α : Type) (c : Codec α) (WF : α → Prop), SizeOk c WF →
      SizeOk (withSizeC c) (WithSizeSzWF c WF)) ∧
    (∀ (α : Type) (c : Codec α) (WF : α → Prop) (k : Int), SizeOk c WF →
      SizeOk (reqMsgC k c) (ReqSzWF c WF)) ∧
    (∀ (α : Type) (c : Codec α) (WF : α → Prop), SizeOk c WF →
      SizeOk (respMsgC c) (RespSzWF c WF)) ∧
    (∀ (α : Type) (c : Codec α) (WF : α → Prop), SizeOk c WF →
      SizeOk (requestOrResponseC c) (WithSizeSzWF c WF)) :=
  ⟨sizeOk_intC 1, sizeOk_intC 2, sizeOk_intC 4, sizeOk_intC 8,
   sizeOk_string, sizeOk_optString, sizeOk_bytes, sizeOk_optBytes,
   fun _ c WF h => sizeOk_vec c WF h,
   fun _ c WF h => sizeOk_withSize c WF h,
   fun _ c WF k h => sizeOk_reqMsg k c WF h,
   fun _ c WF h => sizeOk_respMsg c WF h,
   fun _ c WF h => sizeOk_withSize c WF h⟩

/-- Witness for C1 at the concrete string "Client". -/
theorem c1_size_encode_duality_witness :
    0 ≤ stringC.size [67, 108, 105, 101, 110, 116] ∧
      ((stringC.enc [67, 108, 105, 101, 110, 116]).length : Int) =
        stringC.size [67, 108, 105, 101, 110, 116] :=
  c1_size_encode_duality.2.2.2.2.1 [67, 108, 105, 101, 110, 116]
    (by exact ⟨by decide, by decide⟩)

/-- C2 counterexample: at the 2147483647-byte `Vec<u8>`, decoding the encoding
succeeds and consumes all 2147483651 encoded bytes, but `size(v)` is the
wrapped i32 value -2147483645, so the byte count consumed by decode does not
equal `size(v)` as the claim states. -/
theorem c2_counterexample_consumed_not_size :
    bytesC.dec (bytesC.enc (List.replicate 2147483647 0) ++ []) =
      .ok (List.replicate 2147483647 0, []) ∧
    ((bytesEnc (List.replicate 2147483647 0)).length : Int) = 2147483651 ∧
    bytesSize (List.replicate 2147483647 0) = -2147483645 := by
  refine ⟨?_, ?_, ?_⟩
  · exact decOk_bytes (List.replicate 2147483647 0) []
      (by unfold BytesWF; rw [List.length_replicate]; norm_num)
  · simp only [bytesEnc, List.length_append, encInt_length, List.length_replicate]
    norm_num
  · unfold bytesSize
    rw [List.length_replicate]
    decide

/-- C2 amended: round-trip.  For every well-formed value of every
`KafkaSerializable` type, decoding the bytes produced by encode succeeds,
returns the same value, and leaves exactly the appended rest of the stream —
i.e. it consumes exactly the encoded byte count.  That count equals `size(v)`
whenever the codec satisfies the size/encode duality on the value (final
conjunct) — i.e. when the aggregate size fits i32; for larger values the i32
`size()` wraps and differs from the consumed count (see the counterexample). -/
theorem c2_round_trip :
    DecOk i8C I8Rg ∧ DecOk i16C I16Rg ∧ DecOk i32C I32Rg ∧ DecOk i64C I64Rg ∧
    DecOk stringC StrWF ∧ DecOk optStringC OptStrWF ∧
    DecOk bytesC BytesWF ∧ DecOk optBytesC OptBytesWF ∧
    (∀ (α : Type) (c : Codec α) (WF : α → Prop), DecOk c WF →
      DecOk (vecC c) (VecWF WF)) ∧
    (∀ (α : Type) (c : Codec α) (WF : α → Prop), SizeOk c WF → DecOk c WF →
      DecOk (withSizeC c) (WithSzWF c WF)) ∧
    (∀ (α : Type) (c : Codec α) (WF : α → Prop) (k : Int), I16Rg k → DecOk c WF →
      DecOk (reqMsgC k c) (ReqWF WF)) ∧
    (∀ (α : Type) (c : Codec α) (WF : α → Prop), DecOk c WF →
      DecOk (respMsgC c) (RespWF WF)) ∧
    (∀ (α : Type) (c : Codec α) (WF : α → Prop), SizeOk c WF → DecOk c WF →
      DecOk (requestOrResponseC c) (WithSzWF c WF)) ∧
    (∀ (α : Type) (c : Codec α) (WF : α → Prop), SizeOk c WF → ∀ v, WF v →
      (c.enc v).length = (c.size v).toNat) :=
  ⟨decOk_i8C, decOk_i16C, decOk_i32C, decOk_i64C,
   decOk_string, decOk_optString, decOk_bytes, decOk_optBytes,
   fun _ c WF h => decOk_vec c WF h,
   fun _ c WF hs hd => decOk_withSize c WF hs hd,
   fun _ c WF k hk hd => decOk_reqMsg k hk c WF hd,
   fun _ c WF hd => decOk_respMsg c WF hd,
   fun _ c WF hs hd => decOk_withSize c WF hs hd,
   fun _ c WF hs v hv => by
     obtain ⟨h0, hl⟩ := hs v hv
     omega⟩

/-- Witness for C2 at the concrete string "test" with a trailing byte. -/
theorem c2_round_trip_witness :
    stringC.dec (stringC.enc [116, 101, 115, 116] ++ [9]) =
      .ok ([116, 101, 115, 116], [9]) :=
  c2_round_trip.2.2.2.2.1 [116, 101, 115, 116] [9] (by exact ⟨by decide, by decide⟩)

/-- C3: frame over/under-consumption.  (1) A sized frame whose declared length is
one byte larger than `T`'s true encoding fails on the non-zero remainder check
of the bounded reader.  (2) One byte smaller: the inner decode is truncated at
the bound and fails (given that every strict prefix of the true encoding fails
to decode).  (3) On success a frame consumes exactly its 4-byte header plus the
declared byte count: bytes of subsequent frames are never consumed. -/
theorem c3_frame_misdeclaration :
    (∀ (α : Type) (c : Codec α) (v : α) (x : Nat) (future : List Nat),
      (∀ rest, c.dec (c.enc v ++ rest) = .ok (v, rest)) →
      ((c.enc v).length : Int) + 1 < 2147483648 →
      withSizeDec c (encInt 4 (((c.enc v).length : Int) + 1) ++ (c.enc v ++ x :: future)) =
        .error (.assertFail "limit == 0")) ∧
    (∀ (α : Type) (c : Codec α) (v : α) (future : List Nat),
      (∀ k, k < (c.enc v).length → ∃ e, c.dec ((c.enc v).take k) = .error e) →
      1 ≤ (c.enc v).length → ((c.enc v).length : Int) < 2147483648 →
      ∃ e, withSizeDec c (encInt 4 (((c.enc v).length : Int) - 1) ++ (c.enc v ++ future)) =
        .error e) ∧
    (∀ (α : Type) (c : Codec α) (l : List Nat) (v : α) (r : List Nat),
      withSizeDec c l = .ok (v, r) →
      ∃ size : Int, decInt 4 l = .ok (size, l.drop 4) ∧ r = l.drop (4 + asUint size)) :=
  ⟨fun _ c v x future hrt hlen => withSizeDec_over c v x future hrt hlen,
   fun _ c v future htrunc hpos hlen => withSizeDec_under c v future htrunc hpos hlen,
   fun _ c l v r h => withSizeDec_bounded c l v r h⟩

/-- Witness for C3: an i16 frame declared one byte long, with one byte of the
next frame visible past the boundary, fails the zero-remainder assertion. -/
theorem c3_frame_misdeclaration_witness :
    withSizeDec i16C (encInt 4 (((i16C.enc 5).length : Int) + 1) ++ (i16C.enc 5 ++ 7 :: [])) =
      .error (.assertFail "limit == 0") :=
  c3_frame_misdeclaration.1 Int i16C 5 7 []
    (fun rest => decInt2_enc 5 (by norm_num) (by norm_num) rest)
    (by decide)

/-- C4: sentinel boundaries.  Optional string and optional byte array: length
`-1` decodes to `None` consuming no payload bytes; length `0` decodes to a
present empty value; any length below `-1` fails — in protocol.rs on the
`assert!(size >= -1)` (a panic), and in the types.rs variant (which lacks the
assert) on the huge sign-extended `read_exact`, with an end-of-file error. -/
theorem c4_sentinel_boundaries :
    (∀ rest, optStringDec (encInt 2 (-1) ++ rest) = .ok (none, rest)) ∧
    (∀ rest, optStringDec (encInt 2 0 ++ rest) = .ok (some [], rest)) ∧
    (∀ (v : Int) (rest : List Nat), -32768 ≤ v → v < -1 →
      optStringDec (encInt 2 v ++ rest) = .error (.assertFail "size >= -1")) ∧
    (∀ (v : Int) (rest : List Nat), -32768 ≤ v → v < -1 →
      rest.length < 18446744073709518848 →
      typesOptStringDec (encInt 2 v ++ rest) = .error .eof) ∧
    (∀ rest, optBytesDec (encInt 4 (-1) ++ rest) = .ok (none, rest)) ∧
    (∀ rest, optBytesDec (encInt 4 0 ++ rest) = .ok (some [], rest)) ∧
    (∀ (v : Int) (rest : List Nat), -2147483648 ≤ v → v < -1 →
      optBytesDec (encInt 4 v ++ rest) = .error (.assertFail "size >= -1")) :=
  ⟨optStringDec_neg1, optStringDec_zero,
   fun v rest h1 h2 => optStringDec_belowNeg1 v h1 h2 rest,
   fun v rest h1 h2 h3 => typesOptStringDec_belowNeg1 v h1 h2 rest h3,
   optBytesDec_neg1, optBytesDec_zero,
   fun v rest h1 h2 => optBytesDec_belowNeg1 v h1 h2 rest⟩

/-- Witness for C4 at length -2. -/
theorem c4_sentinel_boundaries_witness :
    optStringDec (encInt 2 (-2) ++ []) = .error (.assertFail "size >= -1") :=
  c4_sentinel_boundaries.2.2.1 (-2) [] (by norm_num) (by norm_num)

/-- C5: envelope key/version check.  Decoding a `RequestMessage<T>` whose leading
i16 api key differs from `T`'s api-key constant, or whose api version is
non-zero, fails (on the corresponding `assert_eq!`) and never proceeds to
produce a value. -/
theorem c5_envelope_key_version_check :
    (∀ (α : Type) (c : Codec α) (ek k : Int) (rest : List Nat), I16Rg k → k ≠ ek →
      reqMsgDec ek c (encInt 2 k ++ rest) =
        .error (.assertFail "api_key == Request api_key")) ∧
    (∀ (α : Type) (c : Codec α) (ek vv : Int) (rest : List Nat),
      I16Rg ek → I16Rg vv → vv ≠ 0 →
      reqMsgDec ek c (encInt 2 ek ++ (encInt 2 vv ++ rest)) =
        .error (.assertFail "api_version == 0")) :=
  ⟨fun _ c ek k rest h2 hne => reqMsgDec_wrongKey c ek k h2 hne rest,
   fun _ c ek vv rest h1 hv hne => reqMsgDec_wrongVersion c ek vv h1 hv hne rest⟩

/-- Witness for C5: api key 4 where MetadataRequest's constant 3 is expected. -/
theorem c5_envelope_key_version_check_witness :
    reqMsgDec metadataApiKey metadataRequestC (encInt 2 4 ++ []) =
      .error (.assertFail "api_key == Request api_key") :=
  c5_envelope_key_version_check.1 MetadataRequest metadataRequestC metadataApiKey 4 []
    (by constructor <;> decide) (by decide)

/-- C6 counterexample: the claim says an API-key mismatch "is returned to the
caller as a typed error value carrying a discriminant and description".  It is
not: decoding a `RequestMessage<MetadataRequest>` from the two bytes `[0x00,
0x04]` (api key 4, expected 3) trips `assert_eq!(api_key, ..)` — a panic
(modelled `DecErr.assertFail`), which aborts instead of returning an `IoError`
value; `isTypedIoError` classifies the outcome as not a typed error. -/
theorem c6_counterexample_assert_is_panic :
    reqMsgDec metadataApiKey metadataRequestC [0, 4] =
      .error (.assertFail "api_key == Request api_key") ∧
    (match reqMsgDec metadataApiKey metadataRequestC [0, 4] with
     | .error e => isTypedIoError e
     | .ok _ => true) = false :=
  ⟨rfl, rfl⟩

/-- C6 amended: invalid UTF-8 in a string payload and truncation are surfaced to
the caller as typed `IoError` values carrying a discriminant and description
(`InvalidInput`/"Problem decoding buffer as utf8", `EndOfFile`); the violations
guarded by assertions — length below the `-1` sentinel, API key/version
mismatch, and a non-zero remainder after a bounded decode — panic via
`assert!`/`assert_eq!` instead of returning a typed error value. -/
theorem c6_typed_failures_amended :
    (∀ buffer rest, buffer.length < 32768 → utf8Valid buffer = false →
      stringDec (encInt 2 (buffer.length : Int) ++ (buffer ++ rest)) =
        .error (.invalidInput "Problem decoding buffer as utf8")) ∧
    (∀ l : List Nat, l.length < 2 → i16C.dec l = .error .eof) ∧
    (∀ (v : Int) (rest : List Nat), -32768 ≤ v → v < -1 →
      optStringDec (encInt 2 v ++ rest) = .error (.assertFail "size >= -1")) ∧
    (∀ (α : Type) (c : Codec α) (ek k : Int) (rest : List Nat), I16Rg k → k ≠ ek →
      reqMsgDec ek c (encInt 2 k ++ rest) =
        .error (.assertFail "api_key == Request api_key")) ∧
    (∀ (α : Type) (c : Codec α) (v : α) (x : Nat) (future : List Nat),
      (∀ rest, c.dec (c.enc v ++ rest) = .ok (v, rest)) →
      ((c.enc v).length : Int) + 1 < 2147483648 →
      withSizeDec c (encInt 4 (((c.enc v).length : Int) + 1) ++ (c.enc v ++ x :: future)) =
        .error (.assertFail "limit == 0")) :=
  ⟨fun buffer rest h1 h2 => stringDec_badUtf8 buffer rest h1 h2,
   fun l h => decInt_short 2 l h,
   fun v rest h1 h2 => optStringDec_belowNeg1 v h1 h2 rest,
   fun _ c ek k rest h2 hne => reqMsgDec_wrongKey c ek k h2 hne rest,
   fun _ c v x future hrt hlen => withSizeDec_over c v x future hrt hlen⟩

/-- Witness for the amended C6: the byte 0xFF is not valid UTF-8 and yields the
typed `InvalidInput` decode error. -/
theorem c6_typed_failures_amended_witness :
    stringDec (encInt 2 (([255] : List Nat).length : Int) ++ ([255] ++ [])) =
      .error (.invalidInput "Problem decoding buffer as utf8") :=
  c6_typed_failures_amended.1 [255] [] (by decide) (by decide)

/-- C7: end-to-end scenario.  Encoding
`RequestOrResponse(RequestMessage { correlation_id: 0, client_id: "Client",
request_message: MetadataRequest { topic_names: ["test"] } })` produces exactly
the 30 bytes of the source's `test_full_metadata_request`, and decoding those
bytes reproduces the value with nothing left over. -/
theorem c7_end_to_end_metadata :
    (requestOrResponseC (reqMsgC metadataApiKey metadataRequestC)).enc
      ⟨0, [67, 108, 105, 101, 110, 116], ⟨[[116, 101, 115, 116]]⟩⟩ =
      [0, 0, 0, 26, 0, 3, 0, 0, 0, 0, 0, 0, 0, 6, 67, 108, 105, 101, 110, 116,
       0, 0, 0, 1, 0, 4, 116, 101, 115, 116] ∧
    (requestOrResponseC (reqMsgC metadataApiKey metadataRequestC)).dec
      [0, 0, 0, 26, 0, 3, 0, 0, 0, 0, 0, 0, 0, 6, 67, 108, 105, 101, 110, 116,
       0, 0, 0, 1, 0, 4, 116, 101, 115, 116] =
      .ok (⟨0, [67, 108, 105, 101, 110, 116], ⟨[[116, 101, 115, 116]]⟩⟩, []) :=
  ⟨rfl, rfl⟩

/-- C8: error-code resolution.  `from_i64` maps 0 to NoError, -1 to Unknown, and
returns `none` (not a crash or a default) for every unassigned code — in
particular the intentionally unassigned 13 and the out-of-range 20, and in
general every integer outside the assigned set. -/
theorem c8_error_code_resolution :
    Error.from_i64 0 = some .NoError ∧
    Error.from_i64 (-1) = some .Unknown ∧
    Error.from_i64 13 = none ∧
    Error.from_i64 20 = none ∧
    (∀ n : Int, (n < -1 ∨ n = 13 ∨ 16 < n) → Error.from_i64 n = none) := by
  refine ⟨rfl, rfl, rfl, rfl, ?_⟩
  intro n h
  unfold Error.from_i64
  split <;> first | rfl | (exfalso; omega)

/-- Witness for C8 at the unassigned code 20. -/
theorem c8_error_code_resolution_witness : Error.from_i64 20 = none :=
  c8_error_code_resolution.2.2.2.2 20 (by norm_num)

/-- C9: container codec.  Encode writes the i32 element count (the true length,
below 2^31) followed by each element's encoding in order; decode reads the
count, fails (via `assert!`) if it is negative, and otherwise decodes exactly
`count` elements in order; size is 4 plus the sum of element sizes, computed as
the program computes it — in wrapping i32 arithmetic (the fifth conjunct states
the identity in that arithmetic; the sixth, that it is the plain sum whenever
the total fits i32); the empty sequence encodes as count 0 with no element
bytes. -/
theorem c9_container_codec :
    (∀ (α : Type) (c : Codec α) (xs : List α), xs.length < 2147483648 →
      vecEnc c xs = encInt 4 (xs.length : Int) ++ (xs.map c.enc).flatten) ∧
    (∀ (α : Type) (c : Codec α) (n : Int) (rest : List Nat), 0 ≤ n → n < 2147483648 →
      vecDec c (encInt 4 n ++ rest) = decN c n.toNat rest) ∧
    (∀ (α : Type) (c : Codec α) (v : Int) (rest : List Nat), -2147483648 ≤ v → v < 0 →
      vecDec c (encInt 4 v ++ rest) = .error (.assertFail "size >= 0")) ∧
    (∀ (α : Type) (c : Codec α) (WF : α → Prop), DecOk c WF →
      ∀ (xs : List α) (rest : List Nat), (∀ x ∈ xs, WF x) →
      decN c xs.length ((xs.map c.enc).flatten ++ rest) = .ok (xs, rest)) ∧
    (∀ (α : Type) (c : Codec α) (xs : List α),
      vecSize c xs = wrapI32 (4 + (xs.map c.size).sum)) ∧
    (∀ (α : Type) (c : Codec α) (xs : List α), (∀ x ∈ xs, 0 ≤ c.size x) →
      4 + (xs.map c.size).sum < 2147483648 →
      vecSize c xs = 4 + (xs.map c.size).sum) ∧
    (∀ (α : Type) (c : Codec α), vecEnc c [] = [0, 0, 0, 0]) :=
  ⟨fun _ c xs h => vecEnc_count c xs h,
   fun _ c n rest h0 h1 => vecDec_nonneg c n h0 h1 rest,
   fun _ c v rest h1 h2 => vecDec_neg c v h1 h2 rest,
   fun _ c WF hd xs rest hall => decN_flatten c WF hd xs hall rest,
   fun _ c xs => by
     have h := foldl_addI32_wrap c xs 4
     have h4 : wrapI32 (4 : Int) = 4 := by decide
     rw [h4] at h
     exact h,
   fun _ c xs hx hb => foldl_addI32_exact c xs 4 (by norm_num) hx hb,
   fun _ c => by
     show encInt 4 (asI32 (List.length [])) ++ (List.map c.enc []).flatten = [0, 0, 0, 0]
     norm_num
     decide⟩

/-- Witness for C9: a negative count fails. -/
theorem c9_container_codec_witness :
    vecDec i16C (encInt 4 (-1) ++ []) = .error (.assertFail "size >= 0") :=
  c9_container_codec.2.2.1 Int i16C (-1) [] (by norm_num) (by norm_num)

/-- C10: a present optional is wire-identical to the non-nullable form.
`Option<String>::encode(Some(s))` writes exactly `String::encode(s)`'s bytes and
`Option<Vec<u8>>::encode(Some(b))` exactly `Vec<u8>::encode(b)`'s; consequently
a present optional can be decoded by the non-nullable decoder and vice versa. -/
theorem c10_present_optional_equals_plain :
    (∀ s, optStringEnc (some s) = stringEnc s) ∧
    (∀ b, optBytesEnc (some b) = bytesEnc b) ∧
    (∀ s rest, StrWF s → stringDec (optStringEnc (some s) ++ rest) = .ok (s, rest)) ∧
    (∀ s rest, StrWF s → optStringDec (stringEnc s ++ rest) = .ok (some s, rest)) ∧
    (∀ b rest, BytesWF b → bytesDec (optBytesEnc (some b) ++ rest) = .ok (b, rest)) ∧
    (∀ b rest, BytesWF b → optBytesDec (bytesEnc b ++ rest) = .ok (some b, rest)) :=
  ⟨fun _ => rfl, fun _ => rfl,
   fun s rest h => decOk_string s rest h,
   fun s rest h => decOk_optString (some s) rest h,
   fun b rest h => decOk_bytes b rest h,
   fun b rest h => decOk_optBytes (some b) rest h⟩

/-- Witness for C10 at the one-byte string "A". -/
theorem c10_present_optional_equals_plain_witness :
    stringDec (optStringEnc (some [65]) ++ []) = .ok ([65], []) :=
  c10_present_optional_equals_plain.2.2.1 [65] [] (by exact ⟨by decide, by decide⟩)
